import Mathlib

/-!
Verification of the event-routing core of a stream-deck plugin template:
the ELGEvents.pubSub event bus of deck/deck.js and the two inbound message
routers (websocket.onmessage in deck/deck.js and in libs/js/deck.js).
-/

/-- A JSON envelope as the routers see it: only the action and event fields
take part in event-name derivation.  `none` models an absent field, i.e. the
JavaScript value undefined. -/
structure Envelope where
  action : Option String
  event  : Option String
deriving DecidableEq, Repr

/-- The guard both routers place in front of the emit call, written
if m and m is not the empty string then emit: the derived name is forwarded
exactly when it is defined and non-empty, otherwise the envelope is dropped
(`none`). -/
def emitGuard (m : Option String) : Option String :=
  match m with
  | some s => if s = "" then none else some s
  | none => none

namespace DeckJS

/-- The event name m computed by websocket.onmessage in deck/deck.js:
when the envelope has no action key (hasOwnProperty is false) m is the raw
event field; otherwise the switch on inMessageType picks
action + "." + event for registerPlugin, the literal sendToPropertyInspector
for registerPropertyInspector, and leaves m undefined in the default branch.
JavaScript string concatenation renders an undefined operand as the string
"undefined". -/
def message (inMessageType : String) (jsonObj : Envelope) : Option String :=
  if jsonObj.action.isNone then
    jsonObj.event
  else if inMessageType = "registerPlugin" then
    some (jsonObj.action.getD "undefined" ++ "." ++ jsonObj.event.getD "undefined")
  else if inMessageType = "registerPropertyInspector" then
    some "sendToPropertyInspector"
  else
    none

/-- The name the router actually publishes under, `none` meaning the
envelope is dropped without publishing. -/
def published (inMessageType : String) (jsonObj : Envelope) : Option String :=
  emitGuard (message inMessageType jsonObj)

/-- Whether the default branch of the switch ran, i.e. the console.warn
UNREGISTERED MESSAGETYPE diagnostic was written. -/
def logged (inMessageType : String) (jsonObj : Envelope) : Bool :=
  jsonObj.action.isSome &&
    !(inMessageType == "registerPlugin" || inMessageType == "registerPropertyInspector")

end DeckJS

namespace LibsDeckJS

/-- The event name computed by the onmessage handler in libs/js/deck.js.
Here the branch test is on truthiness of the destructured action value, so an
action field that is present but holds the empty string takes the no-action
branch.  The registerPlugin branch is a template literal, which renders an
undefined event as the string "undefined". -/
def message (messageType : String) (data : Envelope) : Option String :=
  if data.action.getD "" = "" then
    data.event
  else if messageType = "registerPlugin" then
    some (data.action.getD "undefined" ++ "." ++ data.event.getD "undefined")
  else if messageType = "registerPropertyInspector" then
    some "sendToPropertyInspector"
  else
    none

/-- The name actually published, `none` meaning the envelope is dropped. -/
def published (messageType : String) (data : Envelope) : Option String :=
  emitGuard (message messageType data)

/-- Whether the default branch ran, i.e. the Invalid message type diagnostic
was written via this.log. -/
def logged (messageType : String) (data : Envelope) : Bool :=
  !(data.action.getD "" == "") &&
    !(messageType == "registerPlugin" || messageType == "registerPropertyInspector")

end LibsDeckJS

/-- Behaviours a subscriber callback may exhibit while a publish fan-out is
running: return normally, throw an exception, call its own unsubscribe
handle, or call the unsubscribe handle of callback i. -/
inductive CbAct where
  | pure
  | throwErr
  | unsubSelf
  | unsubOther (i : Nat)
deriving DecidableEq, Repr

/-- Outcome of one pub call on ELGEvents.pubSub: the invocation log, each
entry a callback id paired with the data value it was handed; the final
subscriber list; and whether an exception escaped the fan-out. -/
structure PubResult (α : Type) where
  invoked : List (Nat × α)
  final   : List Nat
  errored : Bool
deriving DecidableEq, Repr

namespace ELGEvents

/-- The body of the closure ELGEvents.pubSub keeps a JavaScript Set named
subscribers; callbacks are identified by Nat.  subscribers.add(fn) keeps
insertion order and ignores re-insertion of an element already present. -/
def subAdd (subscribers : List Nat) (fn : Nat) : List Nat :=
  if fn ∈ subscribers then subscribers else subscribers ++ [fn]

/-- The unsubscribe handle sub returns is a closure deleting fn from the
set; Set.prototype.delete on an absent element is a no-op. -/
def unsub (subscribers : List Nat) (fn : Nat) : List Nat :=
  subscribers.filter (fun x => decide (x ≠ fn))

/-- Effect of one callback invocation on the subscriber set, paired with
whether the callback threw. -/
def applyAct (self : Nat) (a : CbAct) (s : List Nat) : List Nat × Bool :=
  match a with
  | .pure         => (s, false)
  | .throwErr     => (s, true)
  | .unsubSelf    => (unsub s self, false)
  | .unsubOther i => (unsub s i, false)

/-- Fan-out loop of pub, i.e. subscribers.forEach(fn => fn(data)):
Set.prototype.forEach visits elements in insertion order, skips elements
removed before being visited, and an exception thrown by a callback aborts
the traversal and propagates.  visited records already-visited callbacks;
fuel bounds the recursion (the behaviours here never add subscribers, so
the initial set size suffices). -/
def pubAux {α : Type} (beh : Nat → CbAct) (d : α) :
    Nat → List Nat → List Nat → List (Nat × α) → PubResult α
  | 0, _, s, log => ⟨log, s, false⟩
  | fuel + 1, visited, s, log =>
    match s.find? (fun x => decide (x ∉ visited)) with
    | none => ⟨log, s, false⟩
    | some fn =>
      let r := applyAct fn (beh fn) s
      if r.2 then ⟨log ++ [(fn, d)], r.1, true⟩
      else pubAux beh d fuel (visited ++ [fn]) r.1 (log ++ [(fn, d)])

/-- One pub call: fan out data over the current subscriber set. -/
def pub {α : Type} (beh : Nat → CbAct) (d : α) (subscribers : List Nat) :
    PubResult α :=
  pubAux beh d subscribers.length [] subscribers []

end ELGEvents

/-- Concatenating any strings around a dot never yields the empty string. -/
lemma append_dot_ne_empty (a e : String) : a ++ "." ++ e ≠ "" := by
  intro h
  have h2 : (a ++ "." ++ e).length = ("" : String).length := by rw [h]
  rw [String.length_append, String.length_append] at h2
  have h3 : ("." : String).length = 1 := rfl
  have h4 : ("" : String).length = 0 := rfl
  omega

/-- A name that makes it past the emit guard was the derived name, and is
non-empty. -/
lemma emitGuard_eq_some {m : Option String} {s : String}
    (h : emitGuard m = some s) : m = some s ∧ s ≠ "" := by
  cases m with
  | none => simp [emitGuard] at h
  | some t =>
      by_cases ht : t = ""
      · simp [emitGuard, ht] at h
      · simp [emitGuard, ht] at h
        exact ⟨by rw [h], by rw [← h]; exact ht⟩

/-- An undefined or empty derived name is dropped by the emit guard. -/
lemma emitGuard_drop {m : Option String} (h : m = none ∨ m = some "") :
    emitGuard m = none := by
  rcases h with h | h <;> rw [h] <;> simp [emitGuard]

namespace ELGEvents

/-- Elements already visited are skipped by the fan-out scan: the next
callback picked is the head of the unvisited tail. -/
lemma find?_skip (visited : List Nat) (r : Nat) (rest : List Nat)
    (hr : r ∉ visited) :
    ∀ done : List Nat, (∀ x ∈ done, x ∈ visited) →
      List.find? (fun x => decide (x ∉ visited)) (done ++ r :: rest) = some r := by
  intro done
  induction done with
  | nil =>
      intro _
      rw [List.nil_append, List.find?_cons_of_pos _ (by simp [hr])]
  | cons a l ih =>
      intro h
      have ha : a ∈ visited := h a (List.mem_cons_self a l)
      have htail := ih (fun x hx => h x (List.mem_cons_of_mem a hx))
      rw [List.cons_append, List.find?_cons_of_neg _ (by simp [ha])]
      exact htail

/-- When every remaining element has been visited the scan finds nothing. -/
lemma find?_exhausted (visited : List Nat) :
    ∀ done : List Nat, (∀ x ∈ done, x ∈ visited) →
      List.find? (fun x => decide (x ∉ visited)) done = none := by
  intro done
  induction done with
  | nil => intro _; rfl
  | cons a l ih =>
      intro h
      have ha : a ∈ visited := h a (List.mem_cons_self a l)
      rw [List.find?_cons_of_neg _ (by simp [ha])]
      exact ih (fun x hx => h x (List.mem_cons_of_mem a hx))

/-- Deleting an element not in the set is a no-op. -/
lemma unsub_not_mem_eq {s : List Nat} {fn : Nat} (h : fn ∉ s) :
    unsub s fn = s := by
  apply List.filter_eq_self.mpr
  intro a ha
  simp only [decide_eq_true_eq]
  intro hc
  exact h (hc ▸ ha)

end ELGEvents

namespace ELGEvents

/-- Deleting t from a set in which it occurs once, between done and post,
removes exactly that occurrence. -/
lemma unsub_middle {done post : List Nat} {t : Nat} (hd : t ∉ done)
    (hp : t ∉ post) : unsub (done ++ t :: post) t = done ++ post := by
  have h1 : unsub done t = done := unsub_not_mem_eq hd
  have h2 : unsub post t = post := unsub_not_mem_eq hp
  unfold unsub at h1 h2 ⊢
  have ht : (decide (t ≠ t)) = false := by simp
  rw [List.filter_append, h1, List.filter_cons, ht]
  simpa using h2

/-- Fan-out over a tail of pure callbacks: every remaining subscriber is
invoked exactly once, in order, handed the same data, and the subscriber
set is left unchanged. -/
lemma pubAux_pure {α : Type} (beh : Nat → CbAct) (d : α) :
    ∀ (rest done visited : List Nat) (log : List (Nat × α)) (fuel : Nat),
      (∀ x ∈ done, x ∈ visited) →
      (∀ x ∈ rest, x ∉ visited) →
      rest.Nodup →
      (∀ x ∈ rest, beh x = CbAct.pure) →
      rest.length ≤ fuel →
      pubAux beh d fuel visited (done ++ rest) log
        = ⟨log ++ rest.map (fun f => (f, d)), done ++ rest, false⟩ := by
  intro rest
  induction rest with
  | nil =>
      intro done visited log fuel h1 _ _ _ _
      cases fuel with
      | zero => simp [pubAux]
      | succ n =>
          simp only [pubAux, List.append_nil, List.map_nil]
          rw [find?_exhausted visited done h1]
  | cons r rest ih =>
      intro done visited log fuel h1 h2 h3 h4 hf
      cases fuel with
      | zero => simp at hf
      | succ n =>
          have hr : r ∉ visited := h2 r (List.mem_cons_self r rest)
          have hbr : beh r = CbAct.pure := h4 r (List.mem_cons_self r rest)
          simp only [pubAux]
          rw [find?_skip visited r rest hr done h1]
          simp only [hbr, applyAct]
          have hassoc : done ++ r :: rest = (done ++ [r]) ++ rest := by simp
          rw [hassoc, ih ((done ++ [r])) (visited ++ [r]) (log ++ [(r, d)]) n
            (by intro x hx
                rcases List.mem_append.mp hx with hx | hx
                · exact List.mem_append_left _ (h1 x hx)
                · exact List.mem_append_right _ hx)
            (by intro x hx
                have hxv : x ∉ visited := h2 x (List.mem_cons_of_mem r hx)
                have hxr : x ≠ r := fun hc =>
                  (List.nodup_cons.mp h3).1 (hc ▸ hx)
                simp [hxv, hxr])
            (List.nodup_cons.mp h3).2
            (fun x hx => h4 x (List.mem_cons_of_mem r hx))
            (by simpa using Nat.le_of_succ_le_succ hf)]
          simp

end ELGEvents

namespace ELGEvents

/-- Fan-out in which callback t throws after a run of pure callbacks: the
pure prefix and t itself are invoked, the exception escapes the forEach, and
every callback after t is never invoked in that publish call. -/
lemma pubAux_throw {α : Type} (beh : Nat → CbAct) (d : α) (t : Nat)
    (post : List Nat) :
    ∀ (pre done visited : List Nat) (log : List (Nat × α)) (fuel : Nat),
      (∀ x ∈ done, x ∈ visited) →
      (∀ x ∈ pre ++ t :: post, x ∉ visited) →
      (pre ++ t :: post).Nodup →
      (∀ x ∈ pre, beh x = CbAct.pure) →
      beh t = CbAct.throwErr →
      pre.length < fuel →
      pubAux beh d fuel visited (done ++ (pre ++ t :: post)) log
        = ⟨log ++ (pre ++ [t]).map (fun f => (f, d)),
           done ++ (pre ++ t :: post), true⟩ := by
  intro pre
  induction pre with
  | nil =>
      intro done visited log fuel h1 h2 _ _ h5 hf
      cases fuel with
      | zero => exact absurd hf (by omega)
      | succ n =>
          have ht : t ∉ visited := h2 t (by simp)
          simp only [pubAux, List.nil_append]
          rw [find?_skip visited t post ht done h1]
          simp [h5, applyAct]
  | cons p pre ih =>
      intro done visited log fuel h1 h2 h3 h4 h5 hf
      cases fuel with
      | zero => exact absurd hf (by omega)
      | succ n =>
          have hp : p ∉ visited := h2 p (by simp)
          have hbp : beh p = CbAct.pure := h4 p (List.mem_cons_self p pre)
          have hptail : p ∉ pre ++ t :: post := (List.nodup_cons.mp (by simpa using h3)).1
          simp only [pubAux, List.cons_append]
          rw [find?_skip visited p (pre ++ t :: post) hp done h1]
          simp only [hbp, applyAct]
          have hassoc : done ++ p :: (pre ++ t :: post)
              = (done ++ [p]) ++ (pre ++ t :: post) := by simp
          have hh1 : ∀ x ∈ done ++ [p], x ∈ visited ++ [p] := by
            intro x hx
            rcases List.mem_append.mp hx with hx | hx
            · exact List.mem_append_left _ (h1 x hx)
            · exact List.mem_append_right _ hx
          have hh2 : ∀ x ∈ pre ++ t :: post, x ∉ visited ++ [p] := by
            intro x hx
            have hxv : x ∉ visited := h2 x (by simpa using List.mem_cons_of_mem p hx)
            have hxp : x ≠ p := fun hc => hptail (hc ▸ hx)
            simp [hxv, hxp]
          have hh3 : (pre ++ t :: post).Nodup := (List.nodup_cons.mp (by simpa using h3)).2
          have hh4 : ∀ x ∈ pre, beh x = CbAct.pure :=
            fun x hx => h4 x (List.mem_cons_of_mem p hx)
          have hh5 : pre.length < n := by
            simp only [List.length_cons] at hf
            omega
          rw [hassoc, ih (done ++ [p]) (visited ++ [p]) (log ++ [(p, d)]) n
            hh1 hh2 hh3 hh4 h5 hh5]
          simp

/-- Fan-out in which callback t calls its own unsubscribe handle while the
other callbacks are pure: every subscriber present at the start of the
publish, t included, is still invoked exactly once in order, and afterwards
the subscriber set no longer contains t. -/
lemma pubAux_unsubSelf {α : Type} (beh : Nat → CbAct) (d : α) (t : Nat)
    (post : List Nat) :
    ∀ (pre done visited : List Nat) (log : List (Nat × α)) (fuel : Nat),
      (∀ x ∈ done, x ∈ visited) →
      (∀ x ∈ pre ++ t :: post, x ∉ visited) →
      t ∉ done →
      (pre ++ t :: post).Nodup →
      (∀ x ∈ pre ++ post, beh x = CbAct.pure) →
      beh t = CbAct.unsubSelf →
      (pre ++ t :: post).length ≤ fuel →
      pubAux beh d fuel visited (done ++ (pre ++ t :: post)) log
        = ⟨log ++ (pre ++ t :: post).map (fun f => (f, d)),
           done ++ (pre ++ post), false⟩ := by
  intro pre
  induction pre with
  | nil =>
      intro done visited log fuel h1 h2 htd h3 h4 h5 hf
      cases fuel with
      | zero => simp at hf
      | succ n =>
          have ht : t ∉ visited := h2 t (by simp)
          have htp : t ∉ post := (List.nodup_cons.mp (by simpa using h3)).1
          simp only [pubAux, List.nil_append]
          rw [find?_skip visited t post ht done h1]
          simp only [h5, applyAct]
          rw [unsub_middle htd htp]
          rw [pubAux_pure beh d post done (visited ++ [t]) (log ++ [(t, d)]) n
            (fun x hx => List.mem_append_left _ (h1 x hx))
            (by intro x hx
                have hxv : x ∉ visited := h2 x (by simpa using List.mem_cons_of_mem t hx)
                have hxt : x ≠ t := fun hc => htp (hc ▸ hx)
                simp [hxv, hxt])
            ((List.nodup_cons.mp (by simpa using h3)).2)
            (fun x hx => h4 x (by simpa using hx))
            (by simp at hf; omega)]
          simp
  | cons p pre ih =>
      intro done visited log fuel h1 h2 htd h3 h4 h5 hf
      cases fuel with
      | zero => simp at hf
      | succ n =>
          have hp : p ∉ visited := h2 p (by simp)
          have hbp : beh p = CbAct.pure := h4 p (by simp)
          have hptail : p ∉ pre ++ t :: post := (List.nodup_cons.mp (by simpa using h3)).1
          have hpt : p ≠ t := fun hc => hptail (by simp [hc])
          simp only [pubAux, List.cons_append]
          rw [find?_skip visited p (pre ++ t :: post) hp done h1]
          simp only [hbp, applyAct]
          have hassoc : done ++ p :: (pre ++ t :: post)
              = (done ++ [p]) ++ (pre ++ t :: post) := by simp
          have hh1 : ∀ x ∈ done ++ [p], x ∈ visited ++ [p] := by
            intro x hx
            rcases List.mem_append.mp hx with hx | hx
            · exact List.mem_append_left _ (h1 x hx)
            · exact List.mem_append_right _ hx
          have hh2 : ∀ x ∈ pre ++ t :: post, x ∉ visited ++ [p] := by
            intro x hx
            have hxv : x ∉ visited := h2 x (by simpa using List.mem_cons_of_mem p hx)
            have hxp : x ≠ p := fun hc => hptail (hc ▸ hx)
            simp [hxv, hxp]
          have hh3 : t ∉ done ++ [p] := by
            intro hc
            rcases List.mem_append.mp hc with hc | hc
            · exact htd hc
            · have htp2 : t = p := by simpa using hc
              exact hpt htp2.symm
          have hh4 : (pre ++ t :: post).Nodup := (List.nodup_cons.mp (by simpa using h3)).2
          have hh5 : ∀ x ∈ pre ++ post, beh x = CbAct.pure := by
            intro x hx
            apply h4
            simp only [List.cons_append, List.mem_cons]
            right
            exact hx
          have hh6 : (pre ++ t :: post).length ≤ n := by
            simp only [List.length_append, List.length_cons] at hf ⊢
            omega
          rw [hassoc, ih (done ++ [p]) (visited ++ [p]) (log ++ [(p, d)]) n
            hh1 hh2 hh3 hh4 hh5 h5 hh6]
          simp

end ELGEvents

namespace ELGEvents

/-- Adding a callback keeps the subscriber set duplicate-free. -/
lemma subAdd_nodup {s : List Nat} {fn : Nat} (h : s.Nodup) :
    (subAdd s fn).Nodup := by
  unfold subAdd
  by_cases hm : fn ∈ s
  · simpa [hm] using h
  · simp [hm, List.nodup_append, h]

/-- A callback just added is in the set. -/
lemma mem_subAdd_self (s : List Nat) (fn : Nat) : fn ∈ subAdd s fn := by
  unfold subAdd
  by_cases hm : fn ∈ s
  · simp [hm]
  · simp [hm]

/-- Membership after an add. -/
lemma mem_subAdd_iff {s : List Nat} {g fn : Nat} :
    g ∈ subAdd s fn ↔ g ∈ s ∨ g = fn := by
  unfold subAdd
  by_cases hm : fn ∈ s
  · simp only [hm, if_true]
    constructor
    · exact Or.inl
    · rintro (h | h)
      · exact h
      · exact h ▸ hm
  · simp [hm]

/-- Membership after a delete. -/
lemma mem_unsub_iff {s : List Nat} {g fn : Nat} :
    g ∈ unsub s fn ↔ g ∈ s ∧ g ≠ fn := by
  simp [unsub, List.mem_filter]

/-- The deleted callback is gone from the set. -/
lemma not_mem_unsub (s : List Nat) (fn : Nat) : fn ∉ unsub s fn := by
  simp [mem_unsub_iff]

/-- Deleting keeps the subscriber set duplicate-free. -/
lemma unsub_nodup {s : List Nat} {fn : Nat} (h : s.Nodup) :
    (unsub s fn).Nodup :=
  h.filter _

/-- Calling the unsubscribe handle a second time is a no-op: the element is
already gone. -/
lemma unsub_idem (s : List Nat) (fn : Nat) :
    unsub (unsub s fn) fn = unsub s fn :=
  unsub_not_mem_eq (not_mem_unsub s fn)

/-- Publish over a set of pure callbacks: each subscriber is invoked exactly
once, in insertion order, handed the same data, and the set is unchanged. -/
lemma pub_pure {α : Type} (beh : Nat → CbAct) (d : α) (s : List Nat)
    (hnd : s.Nodup) (hb : ∀ x ∈ s, beh x = CbAct.pure) :
    pub beh d s = ⟨s.map (fun f => (f, d)), s, false⟩ := by
  unfold pub
  have h := pubAux_pure beh d s [] [] [] s.length
    (by simp) (by simp) hnd hb (Nat.le_refl _)
  simpa using h

end ELGEvents

/-- C2 counterexample: the libs/js/deck.js router, given an envelope whose
action field is present but empty, under message type registerPlugin,
publishes under the raw event name keyDown instead of the concatenation
action dot event (which would be .keyDown), because its branch test is on
truthiness rather than key presence. -/
theorem plugin_name_cex :
    LibsDeckJS.published "registerPlugin" ⟨some "", some "keyDown"⟩
      = some "keyDown" ∧
    ("keyDown" : String) ≠ "" ++ "." ++ "keyDown" := by
  constructor
  · decide
  · decide

/-- C2 amended: for every envelope with an action field, under message type
registerPlugin, the deck/deck.js router publishes under action dot event
exactly; the libs/js/deck.js router does the same provided the action value
is non-empty. -/
theorem plugin_name_amended (env : Envelope) (a e : String)
    (ha : env.action = some a) (he : env.event = some e) :
    DeckJS.published "registerPlugin" env = some (a ++ "." ++ e) ∧
    (a ≠ "" → LibsDeckJS.published "registerPlugin" env = some (a ++ "." ++ e)) := by
  constructor
  · simp [DeckJS.published, DeckJS.message, ha, he, emitGuard,
      append_dot_ne_empty a e]
  · intro hne
    simp [LibsDeckJS.published, LibsDeckJS.message, ha, he, hne, emitGuard,
      append_dot_ne_empty a e]

/-- C2 amended, instantiated: action com.x.y with event keyDown routes to
com.x.y.keyDown through both routers. -/
theorem plugin_name_amended_witness :
    DeckJS.published "registerPlugin" ⟨some "com.x.y", some "keyDown"⟩
      = some "com.x.y.keyDown" ∧
    LibsDeckJS.published "registerPlugin" ⟨some "com.x.y", some "keyDown"⟩
      = some "com.x.y.keyDown" := by
  have h := plugin_name_amended ⟨some "com.x.y", some "keyDown"⟩
    "com.x.y" "keyDown" rfl rfl
  exact ⟨h.1.trans (by decide), (h.2 (by decide)).trans (by decide)⟩

/-- C3 counterexample: the libs/js/deck.js router, given an envelope whose
action field is present but empty, under message type
registerPropertyInspector, publishes under the raw event name instead of the
fixed literal sendToPropertyInspector. -/
theorem pi_name_cex :
    LibsDeckJS.published "registerPropertyInspector"
        ⟨some "", some "didReceiveSettings"⟩ = some "didReceiveSettings" ∧
    ("didReceiveSettings" : String) ≠ "sendToPropertyInspector" := by
  constructor
  · decide
  · decide

/-- C3 amended: for every envelope with an action field, under message type
registerPropertyInspector, the deck/deck.js router publishes under the fixed
literal sendToPropertyInspector regardless of the event value; the
libs/js/deck.js router does the same provided the action value is
non-empty. -/
theorem pi_name_amended (env : Envelope) (a : String) (ha : env.action = some a) :
    DeckJS.published "registerPropertyInspector" env
      = some "sendToPropertyInspector" ∧
    (a ≠ "" → LibsDeckJS.published "registerPropertyInspector" env
      = some "sendToPropertyInspector") := by
  constructor
  · simp [DeckJS.published, DeckJS.message, ha, emitGuard]
  · intro hne
    simp [LibsDeckJS.published, LibsDeckJS.message, ha, hne, emitGuard]

/-- C3 amended, instantiated at a concrete envelope. -/
theorem pi_name_amended_witness :
    DeckJS.published "registerPropertyInspector" ⟨some "com.x.y", some "keyUp"⟩
      = some "sendToPropertyInspector" ∧
    LibsDeckJS.published "registerPropertyInspector" ⟨some "com.x.y", some "keyUp"⟩
      = some "sendToPropertyInspector" := by
  have h := pi_name_amended ⟨some "com.x.y", some "keyUp"⟩ "com.x.y" rfl
  exact ⟨h.1, h.2 (by decide)⟩

/-- C4: for every envelope without an action field, under any message type,
whatever name either router publishes under equals the raw event field of the
envelope verbatim. -/
theorem no_action_raw_event (mt : String) (env : Envelope)
    (h : env.action = none) :
    (∀ s, DeckJS.published mt env = some s → env.event = some s) ∧
    (∀ s, LibsDeckJS.published mt env = some s → env.event = some s) := by
  constructor
  · intro s hs
    have hmsg : DeckJS.message mt env = env.event := by
      simp [DeckJS.message, h]
    have := (emitGuard_eq_some (m := DeckJS.message mt env) hs).1
    rw [hmsg] at this
    exact this
  · intro s hs
    have hmsg : LibsDeckJS.message mt env = env.event := by
      simp [LibsDeckJS.message, h]
    have := (emitGuard_eq_some (m := LibsDeckJS.message mt env) hs).1
    rw [hmsg] at this
    exact this

/-- C4, instantiated: an actionless didReceiveSettings envelope published by
the libs router was published under exactly its event field. -/
theorem no_action_raw_event_witness :
    (Envelope.mk none (some "didReceiveSettings")).event
      = some "didReceiveSettings" := by
  have h := no_action_raw_event "registerPropertyInspector"
    ⟨none, some "didReceiveSettings"⟩ rfl
  exact h.2 "didReceiveSettings" (by decide)

/-- C5: neither router ever publishes under an empty or undefined name, and
when the derived name is undefined or empty the envelope is dropped (no
publish); both routers are total functions, so no error reaches the
caller. -/
theorem never_publish_empty (mt : String) (env : Envelope) :
    (∀ s, DeckJS.published mt env = some s → s ≠ "") ∧
    (∀ s, LibsDeckJS.published mt env = some s → s ≠ "") ∧
    (DeckJS.message mt env = none ∨ DeckJS.message mt env = some "" →
      DeckJS.published mt env = none) ∧
    (LibsDeckJS.message mt env = none ∨ LibsDeckJS.message mt env = some "" →
      LibsDeckJS.published mt env = none) :=
  ⟨fun _ hs => (emitGuard_eq_some hs).2,
   fun _ hs => (emitGuard_eq_some hs).2,
   fun h => emitGuard_drop h,
   fun h => emitGuard_drop h⟩

/-- C5, instantiated: an envelope with an action field under an unknown
message type derives an undefined name and is dropped. -/
theorem never_publish_empty_witness :
    DeckJS.published "bogus" ⟨some "a", none⟩ = none := by
  have h := never_publish_empty "bogus" ⟨some "a", none⟩
  exact h.2.2.1 (Or.inl (by decide))

/-- C6 counterexample: the libs/js/deck.js router, given an envelope whose
action field is present but empty, under the unrecognized message type
bogus, publishes the raw event and writes no diagnostic, contrary to the
claim that such an envelope is logged and dropped. -/
theorem unknown_type_drop_cex :
    LibsDeckJS.published "bogus" ⟨some "", some "keyDown"⟩ = some "keyDown" ∧
    LibsDeckJS.logged "bogus" ⟨some "", some "keyDown"⟩ = false := by
  constructor
  · decide
  · decide

/-- C6 amended: for every envelope with an action field and any message type
other than registerPlugin and registerPropertyInspector, the deck/deck.js
router writes the diagnostic and drops the envelope; the libs/js/deck.js
router does the same provided the action value is non-empty. -/
theorem unknown_type_drop_amended (mt : String) (env : Envelope) (a : String)
    (ha : env.action = some a)
    (h1 : mt ≠ "registerPlugin") (h2 : mt ≠ "registerPropertyInspector") :
    DeckJS.published mt env = none ∧ DeckJS.logged mt env = true ∧
    (a ≠ "" →
      LibsDeckJS.published mt env = none ∧ LibsDeckJS.logged mt env = true) := by
  refine ⟨?_, ?_, fun hne => ⟨?_, ?_⟩⟩
  · simp [DeckJS.published, DeckJS.message, ha, h1, h2, emitGuard]
  · simp [DeckJS.logged, ha, h1, h2]
  · simp [LibsDeckJS.published, LibsDeckJS.message, ha, hne, h1, h2, emitGuard]
  · simp [LibsDeckJS.logged, ha, hne, h1, h2]

/-- C6 amended, instantiated at message type bogus. -/
theorem unknown_type_drop_amended_witness :
    DeckJS.published "bogus" ⟨some "x", some "e"⟩ = none ∧
    DeckJS.logged "bogus" ⟨some "x", some "e"⟩ = true ∧
    LibsDeckJS.published "bogus" ⟨some "x", some "e"⟩ = none ∧
    LibsDeckJS.logged "bogus" ⟨some "x", some "e"⟩ = true := by
  have h := unknown_type_drop_amended "bogus" ⟨some "x", some "e"⟩ "x" rfl
    (by decide) (by decide)
  exact ⟨h.1, h.2.1, (h.2.2 (by decide)).1, (h.2.2 (by decide)).2⟩

namespace ELGEvents

/-- Re-adding a callback already present leaves the set unchanged. -/
lemma subAdd_of_mem {s : List Nat} {fn : Nat} (h : fn ∈ s) :
    subAdd s fn = s := by
  simp [subAdd, h]

end ELGEvents

/-- C1 counterexample: with two subscribers registered under a name, where
the first throws, a publish invokes only the first callback and the
exception escapes: the second callback is never invoked, because
ELGEvents.pubSub.pub wraps no try/catch around the forEach fan-out. -/
theorem pubSub_throw_aborts_cex :
    (ELGEvents.pub (fun n => if n = 0 then CbAct.throwErr else CbAct.pure)
      (37 : Nat) [0, 1]).invoked = [(0, 37)] ∧
    (ELGEvents.pub (fun n => if n = 0 then CbAct.throwErr else CbAct.pure)
      (37 : Nat) [0, 1]).errored = true := by
  constructor
  · decide
  · decide

/-- C1 amended: when a callback throws during a publish, the fan-out is
aborted at that callback: the callbacks registered before it have been
invoked, the throwing callback itself ran, the exception propagates out of
publish, and every callback registered after it is not invoked in that
publish call. -/
theorem pubSub_throw_aborts {α : Type} (pre post : List Nat) (t : Nat) (d : α)
    (h : (pre ++ t :: post).Nodup) :
    ELGEvents.pub (fun n => if n = t then CbAct.throwErr else CbAct.pure) d
        (pre ++ t :: post)
      = ⟨(pre ++ [t]).map (fun f => (f, d)), pre ++ t :: post, true⟩ := by
  unfold ELGEvents.pub
  have hd : pre.Disjoint (t :: post) := List.disjoint_of_nodup_append h
  have hpure : ∀ x ∈ pre,
      (fun n => if n = t then CbAct.throwErr else CbAct.pure) x = CbAct.pure := by
    intro x hx
    have hxt : x ≠ t := fun hc => hd hx (hc ▸ List.mem_cons_self t post)
    simp [hxt]
  have hlen : pre.length < (pre ++ t :: post).length := by
    simp only [List.length_append, List.length_cons]
    omega
  have hmain := ELGEvents.pubAux_throw
    (fun n => if n = t then CbAct.throwErr else CbAct.pure) d t post pre [] []
    [] (pre ++ t :: post).length
    (by simp) (by simp) h hpure (by simp) hlen
  simpa using hmain

/-- C1 amended, instantiated: three subscribers, the middle one throws; the
third is not invoked and the error escapes. -/
theorem pubSub_throw_aborts_witness :
    ELGEvents.pub (fun n => if n = 4 then CbAct.throwErr else CbAct.pure)
        (9 : Nat) [2, 4, 6]
      = ⟨[(2, 9), (4, 9)], [2, 4, 6], true⟩ := by
  have h := pubSub_throw_aborts [2] [6] 4 (9 : Nat) (by decide)
  simpa using h

/-- C7: the unsubscribe handle returned by sub removes exactly that
callback: after one call the callback is gone, a subsequent publish invokes
no entry for it, a second call of the handle is a no-op leaving the set
unchanged, and every other callback's membership is untouched. -/
theorem unsubscribe_handle_spec {α : Type} (s : List Nat) (fn : Nat) (d : α)
    (h : s.Nodup) :
    fn ∉ ELGEvents.unsub (ELGEvents.subAdd s fn) fn ∧
    (∀ p ∈ (ELGEvents.pub (fun _ => CbAct.pure) d
        (ELGEvents.unsub (ELGEvents.subAdd s fn) fn)).invoked, p.1 ≠ fn) ∧
    ELGEvents.unsub (ELGEvents.unsub (ELGEvents.subAdd s fn) fn) fn
      = ELGEvents.unsub (ELGEvents.subAdd s fn) fn ∧
    (∀ g, g ≠ fn →
      (g ∈ ELGEvents.unsub (ELGEvents.subAdd s fn) fn ↔ g ∈ s)) := by
  have hnd2 : (ELGEvents.unsub (ELGEvents.subAdd s fn) fn).Nodup :=
    ELGEvents.unsub_nodup (ELGEvents.subAdd_nodup h)
  refine ⟨ELGEvents.not_mem_unsub _ _, ?_, ELGEvents.unsub_idem _ _, ?_⟩
  · intro p hp
    rw [ELGEvents.pub_pure (fun _ => CbAct.pure) d _ hnd2 (fun x _ => rfl)] at hp
    simp only [List.mem_map] at hp
    obtain ⟨x, hx, hxp⟩ := hp
    have hxfn : x ≠ fn := fun hc => ELGEvents.not_mem_unsub _ _ (hc ▸ hx)
    rw [← hxp]
    exact hxfn
  · intro g hg
    rw [ELGEvents.mem_unsub_iff, ELGEvents.mem_subAdd_iff]
    constructor
    · rintro ⟨hgs | hgf, _⟩
      · exact hgs
      · exact absurd hgf hg
    · exact fun hgs => ⟨Or.inl hgs, hg⟩

/-- C7, instantiated: subscribing 5 on the set holding 3, then calling the
handle twice, leaves the same set as calling it once. -/
theorem unsubscribe_handle_spec_witness :
    ELGEvents.unsub (ELGEvents.unsub (ELGEvents.subAdd [3] 5) 5) 5
      = ELGEvents.unsub (ELGEvents.subAdd [3] 5) 5 :=
  (unsubscribe_handle_spec [3] 5 (0 : Nat) (by decide)).2.2.1

/-- C8: two distinct callbacks subscribed in order to the same name are each
invoked exactly once by a single publish, in registration order, both handed
the same data value. -/
theorem two_subscribers_fanout {α : Type} (a b : Nat) (d : α) (hab : a ≠ b) :
    ELGEvents.pub (fun _ => CbAct.pure) d
        (ELGEvents.subAdd (ELGEvents.subAdd [] a) b)
      = ⟨[(a, d), (b, d)], [a, b], false⟩ := by
  have hba : b ≠ a := Ne.symm hab
  have h1 : ELGEvents.subAdd [] a = [a] := by simp [ELGEvents.subAdd]
  have h2 : ELGEvents.subAdd [a] b = [a, b] := by simp [ELGEvents.subAdd, hba]
  rw [h1, h2]
  have hmain := ELGEvents.pub_pure (fun _ => CbAct.pure) d [a, b]
    (by simp [hab]) (fun x _ => rfl)
  simpa using hmain

/-- C8, instantiated with callbacks 3 and 5 and data 11. -/
theorem two_subscribers_fanout_witness :
    ELGEvents.pub (fun _ => CbAct.pure) (11 : Nat)
        (ELGEvents.subAdd (ELGEvents.subAdd [] 3) 5)
      = ⟨[(3, 11), (5, 11)], [3, 5], false⟩ :=
  two_subscribers_fanout 3 5 11 (by decide)

/-- C9: a subscriber that calls its own unsubscribe handle during its
invocation does not disturb delivery: every subscriber present at the start
of the publish, itself included, is invoked exactly once in registration
order, and afterwards only the self-unsubscriber has left the set. -/
theorem self_unsub_delivery {α : Type} (pre post : List Nat) (t : Nat) (d : α)
    (h : (pre ++ t :: post).Nodup) :
    ELGEvents.pub (fun n => if n = t then CbAct.unsubSelf else CbAct.pure) d
        (pre ++ t :: post)
      = ⟨(pre ++ t :: post).map (fun f => (f, d)), pre ++ post, false⟩ := by
  unfold ELGEvents.pub
  have hd : pre.Disjoint (t :: post) := List.disjoint_of_nodup_append h
  have htpost : t ∉ post := (List.nodup_cons.mp (h.of_append_right)).1
  have hpure : ∀ x ∈ pre ++ post,
      (fun n => if n = t then CbAct.unsubSelf else CbAct.pure) x = CbAct.pure := by
    intro x hx
    rcases List.mem_append.mp hx with hx | hx
    · have hxt : x ≠ t := fun hc => hd hx (hc ▸ List.mem_cons_self t post)
      simp [hxt]
    · have hxt : x ≠ t := fun hc => htpost (hc ▸ hx)
      simp [hxt]
  have hmain := ELGEvents.pubAux_unsubSelf
    (fun n => if n = t then CbAct.unsubSelf else CbAct.pure) d t post pre [] []
    [] (pre ++ t :: post).length
    (by simp) (by simp) (by simp) h hpure (by simp) (Nat.le_refl _)
  simpa using hmain

/-- C9, instantiated: of the subscribers 2, 4, 6 the middle one unsubscribes
itself during its invocation; all three are still invoked and only 4 is
gone afterwards. -/
theorem self_unsub_delivery_witness :
    ELGEvents.pub (fun n => if n = 4 then CbAct.unsubSelf else CbAct.pure)
        (7 : Nat) [2, 4, 6]
      = ⟨[(2, 7), (4, 7), (6, 7)], [2, 6], false⟩ := by
  have h := self_unsub_delivery [2] [6] 4 (7 : Nat) (by decide)
  simpa using h

/-- C10: subscribing the same callback a second time under the same name is
a no-op: the Set is unchanged, a publish invokes that callback exactly once,
and the unsubscribe handle (both returned handles delete the same element)
removes the callback entirely. -/
theorem resubscribe_noop {α : Type} (s : List Nat) (fn : Nat) (d : α)
    (h : s.Nodup) :
    ELGEvents.subAdd (ELGEvents.subAdd s fn) fn = ELGEvents.subAdd s fn ∧
    ((ELGEvents.pub (fun _ => CbAct.pure) d
        (ELGEvents.subAdd (ELGEvents.subAdd s fn) fn)).invoked.map
          Prod.fst).count fn = 1 ∧
    fn ∉ ELGEvents.unsub (ELGEvents.subAdd (ELGEvents.subAdd s fn) fn) fn := by
  have hdup : ELGEvents.subAdd (ELGEvents.subAdd s fn) fn
      = ELGEvents.subAdd s fn :=
    ELGEvents.subAdd_of_mem (ELGEvents.mem_subAdd_self s fn)
  refine ⟨hdup, ?_, ELGEvents.not_mem_unsub _ _⟩
  rw [hdup, ELGEvents.pub_pure (fun _ => CbAct.pure) d _
    (ELGEvents.subAdd_nodup h) (fun x _ => rfl)]
  simp only [List.map_map]
  have hmap : (ELGEvents.subAdd s fn).map (Prod.fst ∘ fun f => (f, d))
      = ELGEvents.subAdd s fn := by
    have hid : (Prod.fst ∘ fun f : Nat => (f, d)) = id := rfl
    rw [hid, List.map_id]
  rw [hmap]
  exact List.count_eq_one_of_mem (ELGEvents.subAdd_nodup h)
    (ELGEvents.mem_subAdd_self s fn)

/-- C10, instantiated: adding callback 2 twice to the empty set equals
adding it once. -/
theorem resubscribe_noop_witness :
    ELGEvents.subAdd (ELGEvents.subAdd [] 2) 2 = ELGEvents.subAdd [] 2 :=
  (resubscribe_noop [] 2 (0 : Nat) (by decide)).1
